import Mathlib

/-!
# Verification of the CRC recurrence-risk scorer (src/Geneapp.py)

Shallow embedding of the scoring logic of `Geneapp.py`.  The app computes,
for a fixed six-gene signature, `risk_score = Σ (inputs[gene] - val_ref) * coef`
(lines 106-121) and `is_high_risk = risk_score > CUTOFF_VALUE` (line 124).

Ideal-value claims are settled over exact rational arithmetic (`ℚ`).  The
finiteness claims use a second embedding over an IEEE-754-style extended value
type `EF` (finite / NaN / ±∞) that mirrors how Python float special values
flow through the same code, because the source performs no finiteness check.
-/

set_option autoImplicit false

abbrev Gene := String

/-- The coefficient table of `Geneapp.py`, in source (insertion) order. -/
def COEFFICIENTS : List (Gene × ℚ) :=
  [("TCEAL4", 0.3364594),
   ("ACTR3B", -0.4104630),
   ("ORAI3",  0.2523666),
   ("PRIM1",  -0.2529674),
   ("LEMD1",  0.2133200),
   ("INHBB",  0.1491095)]

def CUTOFF_VALUE : ℚ := 0.5739

def REF_GENE : Gene := "EMC7"

/-- The configuration constants of the spec data model. -/
structure GeneSignature where
  coefficients : List (Gene × ℚ)
  referenceGene : Gene
  cutoff : ℚ
deriving DecidableEq

/-- The signature actually baked into `Geneapp.py`. -/
def SIGNATURE : GeneSignature :=
  { coefficients := COEFFICIENTS, referenceGene := REF_GENE, cutoff := CUTOFF_VALUE }

/-- One user submission: `val_ref` and the sidebar `inputs` dictionary. -/
structure ExpressionInput where
  referenceValue : ℚ
  targetValues : List (Gene × ℚ)
deriving DecidableEq

/-- One row of `calculation_details` (lines 115-121). -/
structure GeneDetail where
  gene : Gene
  raw : ℚ
  norm : ℚ
  coefficient : ℚ
  contribution : ℚ
deriving DecidableEq

/-- The values the presentation layer reads after the predict branch. -/
structure ScoreResult where
  riskScore : ℚ
  perGeneDetail : List GeneDetail
  isHighRisk : Bool
deriving DecidableEq

/-- A Python `KeyError` on `inputs[gene]` (line 110) aborts the computation. -/
inductive ScoreError where
  | missingGeneValue (gene : Gene)
deriving DecidableEq

deriving instance DecidableEq for Except

/-- The loop of lines 109-121: accumulates `risk_score` and
`calculation_details` over the coefficient table; a missing key in `inputs`
raises (returns an error), exactly as Python dict indexing would. -/
def scoreLoop (iv : ExpressionInput) :
    List (Gene × ℚ) → ℚ → List GeneDetail → Except ScoreError (ℚ × List GeneDetail)
  | [], risk_score, calculation_details => .ok (risk_score, calculation_details)
  | (gene, coef) :: rest, risk_score, calculation_details =>
    match iv.targetValues.lookup gene with
    | none => .error (.missingGeneValue gene)
    | some raw_val =>
      let norm_expr := raw_val - iv.referenceValue
      let contribution := norm_expr * coef
      scoreLoop iv rest (risk_score + contribution)
        (calculation_details ++ [⟨gene, raw_val, norm_expr, coef, contribution⟩])

/-- Lines 106-124 of `Geneapp.py`: `risk_score` starts at `0`,
`calculation_details` at `[]`, then `is_high_risk = risk_score > cutoff`. -/
def score (sig : GeneSignature) (iv : ExpressionInput) : Except ScoreError ScoreResult :=
  match scoreLoop iv sig.coefficients 0 [] with
  | .error e => .error e
  | .ok (risk_score, calculation_details) =>
    .ok { riskScore := risk_score,
          perGeneDetail := calculation_details,
          isHighRisk := decide (risk_score > sig.cutoff) }

/-- Every gene key of the signature has an entry in the submitted values. -/
def requiredPresent (sig : GeneSignature) (iv : ExpressionInput) : Prop :=
  ∀ p ∈ sig.coefficients, (iv.targetValues.lookup p.1).isSome = true

instance (sig : GeneSignature) (iv : ExpressionInput) :
    Decidable (requiredPresent sig iv) := by
  unfold requiredPresent; infer_instance

/-- The per-gene contributions `(inputs[g] - val_ref) * coef`, as a list. -/
def contributionsOf (iv : ExpressionInput) (cs : List (Gene × ℚ)) : List ℚ :=
  cs.map fun p => ((iv.targetValues.lookup p.1).getD 0 - iv.referenceValue) * p.2

/-- The rows of `calculation_details`, as a map over the coefficient table. -/
def detailsOf (iv : ExpressionInput) (cs : List (Gene × ℚ)) : List GeneDetail :=
  cs.map fun p =>
    { gene := p.1,
      raw := (iv.targetValues.lookup p.1).getD 0,
      norm := (iv.targetValues.lookup p.1).getD 0 - iv.referenceValue,
      coefficient := p.2,
      contribution := ((iv.targetValues.lookup p.1).getD 0 - iv.referenceValue) * p.2 }

/-- The UI default submission: reference 6.90, every target gene 10.00. -/
def exampleInput : ExpressionInput :=
  { referenceValue := 6.90,
    targetValues :=
      [("TCEAL4", 10.00), ("ACTR3B", 10.00), ("ORAI3", 10.00),
       ("PRIM1", 10.00), ("LEMD1", 10.00), ("INHBB", 10.00)] }

lemma scoreLoop_eq_of_present (iv : ExpressionInput) (cs : List (Gene × ℚ))
    (h : ∀ p ∈ cs, (iv.targetValues.lookup p.1).isSome = true) :
    ∀ (acc : ℚ) (ds : List GeneDetail),
      scoreLoop iv cs acc ds =
        .ok (acc + (contributionsOf iv cs).sum, ds ++ detailsOf iv cs) := by
  induction cs with
  | nil => intro acc ds; simp [scoreLoop, contributionsOf, detailsOf]
  | cons p rest ih =>
    intro acc ds
    obtain ⟨g, c⟩ := p
    have hg := h (g, c) (List.mem_cons_self _ _)
    obtain ⟨v, hv⟩ := Option.isSome_iff_exists.mp hg
    have hrest : ∀ q ∈ rest, (iv.targetValues.lookup q.1).isSome = true :=
      fun q hq => h q (List.mem_cons_of_mem _ hq)
    simp only [scoreLoop, hv]
    rw [ih hrest]
    simp [contributionsOf, detailsOf, hv, add_assoc]

/-- When every required gene is present, `score` succeeds and its parts are
the closed-form sum, detail table, and threshold comparison. -/
lemma score_eq_of_present (sig : GeneSignature) (iv : ExpressionInput)
    (h : requiredPresent sig iv) :
    score sig iv =
      .ok { riskScore := (contributionsOf iv sig.coefficients).sum,
            perGeneDetail := detailsOf iv sig.coefficients,
            isHighRisk :=
              decide ((contributionsOf iv sig.coefficients).sum > sig.cutoff) } := by
  unfold score
  rw [scoreLoop_eq_of_present iv sig.coefficients h 0 []]
  simp

/-- C1: whenever the input supplies a value for every gene key of the
signature, `score` returns a result whose `riskScore` is the sum over the
coefficient table of `(targetValues[g] - referenceValue) * coefficients[g]`. -/
theorem riskScore_eq_weighted_sum (sig : GeneSignature) (iv : ExpressionInput)
    (h : requiredPresent sig iv) :
    ∃ r, score sig iv = .ok r ∧
      r.riskScore = (sig.coefficients.map
        (fun p => ((iv.targetValues.lookup p.1).getD 0 - iv.referenceValue) * p.2)).sum := by
  refine ⟨_, score_eq_of_present sig iv h, ?_⟩
  simp [contributionsOf]

/-- C1 witness: the formula evaluates at the UI default submission. -/
theorem riskScore_eq_weighted_sum_witness :
    ∃ r, score SIGNATURE exampleInput = .ok r ∧
      r.riskScore = (SIGNATURE.coefficients.map
        (fun p => ((exampleInput.targetValues.lookup p.1).getD 0 -
          exampleInput.referenceValue) * p.2)).sum :=
  riskScore_eq_weighted_sum SIGNATURE exampleInput (by decide)

lemma score_ok_isHighRisk (sig : GeneSignature) (iv : ExpressionInput)
    (r : ScoreResult) (h : score sig iv = .ok r) :
    r.isHighRisk = decide (r.riskScore > sig.cutoff) := by
  unfold score at h
  cases hsl : scoreLoop iv sig.coefficients 0 [] with
  | error e => rw [hsl] at h; cases h
  | ok p =>
    obtain ⟨rs, ds⟩ := p
    rw [hsl] at h
    cases h
    rfl

/-- C2: `isHighRisk` holds exactly when `riskScore` strictly exceeds the
cutoff: a score equal to the cutoff is low risk, and any score of
`cutoff + ε` with `ε > 0` is high risk. -/
theorem isHighRisk_iff_gt_cutoff (sig : GeneSignature) (iv : ExpressionInput)
    (r : ScoreResult) (h : score sig iv = .ok r) :
    (r.isHighRisk = true ↔ r.riskScore > sig.cutoff) ∧
    (r.riskScore = sig.cutoff → r.isHighRisk = false) ∧
    (∀ ε : ℚ, 0 < ε → r.riskScore = sig.cutoff + ε → r.isHighRisk = true) := by
  have hb := score_ok_isHighRisk sig iv r h
  refine ⟨by rw [hb]; simp, ?_, ?_⟩
  · intro he; rw [hb, he]; simp
  · intro ε hε he; rw [hb, he]; simp; linarith

/-- The full result of scoring the UI default submission, computed exactly. -/
def exampleResult : ScoreResult :=
  { riskScore := 0.89225781,
    perGeneDetail :=
      [⟨"TCEAL4", 10, 3.1, 0.3364594, 1.04302414⟩,
       ⟨"ACTR3B", 10, 3.1, -0.4104630, -1.2724353⟩,
       ⟨"ORAI3", 10, 3.1, 0.2523666, 0.78233646⟩,
       ⟨"PRIM1", 10, 3.1, -0.2529674, -0.78419894⟩,
       ⟨"LEMD1", 10, 3.1, 0.2133200, 0.661292⟩,
       ⟨"INHBB", 10, 3.1, 0.1491095, 0.46223945⟩],
    isHighRisk := true }

/-- C2 witness: the threshold rule instantiated at the UI default submission. -/
theorem isHighRisk_iff_gt_cutoff_witness :
    (exampleResult.isHighRisk = true ↔ exampleResult.riskScore > SIGNATURE.cutoff) ∧
    (exampleResult.riskScore = SIGNATURE.cutoff → exampleResult.isHighRisk = false) ∧
    (∀ ε : ℚ, 0 < ε → exampleResult.riskScore = SIGNATURE.cutoff + ε →
      exampleResult.isHighRisk = true) :=
  isHighRisk_iff_gt_cutoff SIGNATURE exampleInput exampleResult (by with_unfolding_all rfl)

lemma scoreLoop_missing (iv : ExpressionInput) (cs : List (Gene × ℚ)) :
    (∃ p ∈ cs, iv.targetValues.lookup p.1 = none) →
    ∀ (acc : ℚ) (ds : List GeneDetail),
      ∃ g, iv.targetValues.lookup g = none ∧
        scoreLoop iv cs acc ds = .error (.missingGeneValue g) := by
  induction cs with
  | nil => rintro ⟨p, hp, _⟩; cases hp
  | cons q rest ih =>
    rintro ⟨p, hp, hnone⟩ acc ds
    obtain ⟨g, c⟩ := q
    cases hlk : iv.targetValues.lookup g with
    | none => exact ⟨g, hlk, by simp [scoreLoop, hlk]⟩
    | some v =>
      rcases List.mem_cons.mp hp with heq | hmem
      · exfalso
        rw [heq] at hnone
        have hnone2 : iv.targetValues.lookup g = none := hnone
        rw [hnone2] at hlk
        cases hlk
      · simp only [scoreLoop, hlk]
        exact ih ⟨p, hmem, hnone⟩ _ _

/-- C3: when the submitted values miss at least one gene required by the
signature, `score` fails with a missing-gene error (the Python `KeyError` on
`inputs[gene]`) and produces no `ScoreResult` at all. -/
theorem score_missing_gene (sig : GeneSignature) (iv : ExpressionInput)
    (h : ∃ p ∈ sig.coefficients, iv.targetValues.lookup p.1 = none) :
    ∃ g, iv.targetValues.lookup g = none ∧
      score sig iv = .error (.missingGeneValue g) ∧
      ∀ r : ScoreResult, score sig iv ≠ .ok r := by
  obtain ⟨g, hg, hloop⟩ := scoreLoop_missing iv sig.coefficients h 0 []
  refine ⟨g, hg, ?_, ?_⟩
  · unfold score; rw [hloop]
  · intro r hr; unfold score at hr; rw [hloop] at hr; cases hr

/-- An input whose dictionary lacks the `TCEAL4` key. -/
def missingInput : ExpressionInput :=
  { referenceValue := 6.90,
    targetValues :=
      [("ACTR3B", 10.00), ("ORAI3", 10.00), ("PRIM1", 10.00),
       ("LEMD1", 10.00), ("INHBB", 10.00)] }

/-- C3 witness: dropping `TCEAL4` from the input makes `score` fail. -/
theorem score_missing_gene_witness :
    ∃ g, missingInput.targetValues.lookup g = none ∧
      score SIGNATURE missingInput = .error (.missingGeneValue g) ∧
      ∀ r : ScoreResult, score SIGNATURE missingInput ≠ .ok r :=
  score_missing_gene SIGNATURE missingInput (by decide)

/-- C5: on a valid submission the detail table has exactly one row per entry
of the coefficient table, in table order, holding the gene, its raw value,
the normalized value `raw - reference`, the coefficient, and the contribution
`normalized * coefficient`. -/
theorem perGeneDetail_structure (sig : GeneSignature) (iv : ExpressionInput)
    (h : requiredPresent sig iv) :
    ∃ r, score sig iv = .ok r ∧
      r.perGeneDetail.length = sig.coefficients.length ∧
      r.perGeneDetail = sig.coefficients.map (fun p =>
        { gene := p.1,
          raw := (iv.targetValues.lookup p.1).getD 0,
          norm := (iv.targetValues.lookup p.1).getD 0 - iv.referenceValue,
          coefficient := p.2,
          contribution :=
            ((iv.targetValues.lookup p.1).getD 0 - iv.referenceValue) * p.2 }) := by
  refine ⟨_, score_eq_of_present sig iv h, ?_, rfl⟩
  simp [detailsOf]

/-- C5 witness: the detail-table shape at the UI default submission. -/
theorem perGeneDetail_structure_witness :
    ∃ r, score SIGNATURE exampleInput = .ok r ∧
      r.perGeneDetail.length = SIGNATURE.coefficients.length ∧
      r.perGeneDetail = SIGNATURE.coefficients.map (fun p =>
        { gene := p.1,
          raw := (exampleInput.targetValues.lookup p.1).getD 0,
          norm := (exampleInput.targetValues.lookup p.1).getD 0 -
            exampleInput.referenceValue,
          coefficient := p.2,
          contribution :=
            ((exampleInput.targetValues.lookup p.1).getD 0 -
              exampleInput.referenceValue) * p.2 }) :=
  perGeneDetail_structure SIGNATURE exampleInput (by decide)

/-- C6: on a valid submission `riskScore` equals the sum of the `contribution`
fields of the detail rows, exactly (so in particular within any floating-point
tolerance). -/
theorem riskScore_additivity (sig : GeneSignature) (iv : ExpressionInput)
    (h : requiredPresent sig iv) :
    ∃ r, score sig iv = .ok r ∧
      r.riskScore = (r.perGeneDetail.map (fun d => d.contribution)).sum := by
  refine ⟨_, score_eq_of_present sig iv h, ?_⟩
  simp only [contributionsOf, detailsOf, List.map_map]
  rfl

/-- C6 witness: per-gene additivity at the UI default submission. -/
theorem riskScore_additivity_witness :
    ∃ r, score SIGNATURE exampleInput = .ok r ∧
      r.riskScore = (r.perGeneDetail.map (fun d => d.contribution)).sum :=
  riskScore_additivity SIGNATURE exampleInput (by decide)

/-- C7: when every target gene's raw value equals the reference value, the
risk score is exactly zero and, the baked-in cutoff 0.5739 being positive,
the result is low risk. -/
theorem zero_normalization_riskScore (iv : ExpressionInput)
    (h : ∀ p ∈ COEFFICIENTS, iv.targetValues.lookup p.1 = some iv.referenceValue) :
    ∃ r, score SIGNATURE iv = .ok r ∧ r.riskScore = 0 ∧ r.isHighRisk = false := by
  have hpres : requiredPresent SIGNATURE iv := by
    intro p hp
    rw [h p hp]
    rfl
  have hsum : (contributionsOf iv SIGNATURE.coefficients).sum = 0 := by
    apply List.sum_eq_zero
    intro x hx
    simp only [contributionsOf, List.mem_map] at hx
    obtain ⟨p, hp, rfl⟩ := hx
    rw [h p hp]
    simp
  refine ⟨_, score_eq_of_present SIGNATURE iv hpres, hsum, ?_⟩
  have hlt : ¬ ((contributionsOf iv SIGNATURE.coefficients).sum > SIGNATURE.cutoff) := by
    rw [hsum]
    norm_num [SIGNATURE, CUTOFF_VALUE]
  simpa using hlt

/-- A submission in which every target gene equals the reference value. -/
def flatInput : ExpressionInput :=
  { referenceValue := 6.90,
    targetValues :=
      [("TCEAL4", 6.90), ("ACTR3B", 6.90), ("ORAI3", 6.90),
       ("PRIM1", 6.90), ("LEMD1", 6.90), ("INHBB", 6.90)] }

/-- C7 witness: the all-equal submission scores exactly zero, low risk. -/
theorem zero_normalization_riskScore_witness :
    ∃ r, score SIGNATURE flatInput = .ok r ∧ r.riskScore = 0 ∧ r.isHighRisk = false :=
  zero_normalization_riskScore flatInput (by with_unfolding_all decide)

lemma sum_map_scaled {α : Type} (l : List α) (f g : α → ℚ) (k : ℚ)
    (h : ∀ x ∈ l, g x = k * f x) :
    (l.map g).sum = k * (l.map f).sum := by
  induction l with
  | nil => simp
  | cons a t ih =>
    simp only [List.map_cons, List.sum_cons]
    rw [h a (List.mem_cons_self _ _), ih (fun x hx => h x (List.mem_cons_of_mem _ hx))]
    ring

/-- C8: if one submission's normalized values are a constant multiple `k` of
another's, gene by gene, its risk score is exactly `k` times the other's. -/
theorem riskScore_linearity (sig : GeneSignature) (iv1 iv2 : ExpressionInput) (k : ℚ)
    (h1 : requiredPresent sig iv1) (h2 : requiredPresent sig iv2)
    (hscale : ∀ p ∈ sig.coefficients,
      (iv2.targetValues.lookup p.1).getD 0 - iv2.referenceValue =
        k * ((iv1.targetValues.lookup p.1).getD 0 - iv1.referenceValue)) :
    ∃ r1 r2, score sig iv1 = .ok r1 ∧ score sig iv2 = .ok r2 ∧
      r2.riskScore = k * r1.riskScore := by
  refine ⟨_, _, score_eq_of_present sig iv1 h1, score_eq_of_present sig iv2 h2, ?_⟩
  simp only [contributionsOf]
  apply sum_map_scaled
  intro p hp
  rw [hscale p hp]
  ring

/-- The default submission with every normalized value doubled. -/
def scaledInput : ExpressionInput :=
  { referenceValue := 6.90,
    targetValues :=
      [("TCEAL4", 13.10), ("ACTR3B", 13.10), ("ORAI3", 13.10),
       ("PRIM1", 13.10), ("LEMD1", 13.10), ("INHBB", 13.10)] }

/-- C8 witness: doubling every normalized value doubles the risk score. -/
theorem riskScore_linearity_witness :
    ∃ r1 r2, score SIGNATURE exampleInput = .ok r1 ∧
      score SIGNATURE scaledInput = .ok r2 ∧
      r2.riskScore = 2 * r1.riskScore :=
  riskScore_linearity SIGNATURE exampleInput scaledInput 2
    (by decide) (by decide) (by with_unfolding_all decide)

lemma scoreLoop_congr (iv1 iv2 : ExpressionInput)
    (href : iv1.referenceValue = iv2.referenceValue) :
    ∀ (cs : List (Gene × ℚ)),
      (∀ p ∈ cs, iv1.targetValues.lookup p.1 = iv2.targetValues.lookup p.1) →
      ∀ (acc : ℚ) (ds : List GeneDetail),
        scoreLoop iv1 cs acc ds = scoreLoop iv2 cs acc ds := by
  intro cs
  induction cs with
  | nil => intro _ acc ds; rfl
  | cons q rest ih =>
    intro h acc ds
    obtain ⟨g, c⟩ := q
    have hg : iv1.targetValues.lookup g = iv2.targetValues.lookup g :=
      h (g, c) (List.mem_cons_self _ _)
    simp only [scoreLoop]
    rw [← hg]
    cases hlk : iv1.targetValues.lookup g with
    | none => rfl
    | some v =>
      rw [href]
      exact ih (fun p hp => h p (List.mem_cons_of_mem _ hp)) _ _

/-- C9: scoring is deterministic and depends on nothing but its arguments:
two submissions with the same reference value and the same dictionary values
at every gene of the signature score identically, bit for bit, regardless of
any other entries or surrounding state. -/
theorem score_deterministic (sig : GeneSignature) (iv1 iv2 : ExpressionInput)
    (href : iv1.referenceValue = iv2.referenceValue)
    (htv : ∀ p ∈ sig.coefficients,
      iv1.targetValues.lookup p.1 = iv2.targetValues.lookup p.1) :
    score sig iv1 = score sig iv2 := by
  unfold score
  rw [scoreLoop_congr iv1 iv2 href sig.coefficients htv 0 []]

/-- The default submission plus an extra dictionary entry the signature
never consults. -/
def exampleInputExtra : ExpressionInput :=
  { referenceValue := 6.90,
    targetValues :=
      [("TCEAL4", 10.00), ("ACTR3B", 10.00), ("ORAI3", 10.00),
       ("PRIM1", 10.00), ("LEMD1", 10.00), ("INHBB", 10.00), ("EMC7", 99)] }

/-- C9 witness: adding an unconsulted entry leaves the result unchanged. -/
theorem score_deterministic_witness :
    score SIGNATURE exampleInput = score SIGNATURE exampleInputExtra :=
  score_deterministic SIGNATURE exampleInput exampleInputExtra rfl
    (by with_unfolding_all decide)

lemma abs_sum_le_of_le {α : Type} (l : List α) (f g : α → ℚ)
    (h : ∀ x ∈ l, |f x| ≤ g x) :
    |(l.map f).sum| ≤ (l.map g).sum := by
  induction l with
  | nil => simp
  | cons a t ih =>
    simp only [List.map_cons, List.sum_cons]
    calc |f a + (t.map f).sum| ≤ |f a| + |(t.map f).sum| := abs_add _ _
    _ ≤ g a + (t.map g).sum :=
      add_le_add (h a (List.mem_cons_self _ _))
        (ih fun x hx => h x (List.mem_cons_of_mem _ hx))

/-- The sum of the absolute values of the six coefficients. -/
def sumAbsCoefficients : ℚ := (COEFFICIENTS.map (fun p => |p.2|)).sum

/-- C10: for any submission whose values all lie in the form bounds
`[0, 25]`, every normalized value lies in `[-25, 25]` and the exact risk
score is bounded: `|riskScore| ≤ 25 * Σ|coefficient| ≤ 40.37`. -/
theorem form_bounded_riskScore (iv : ExpressionInput)
    (h0 : 0 ≤ iv.referenceValue) (h25 : iv.referenceValue ≤ 25)
    (htv : ∀ p ∈ COEFFICIENTS,
      ∃ v, iv.targetValues.lookup p.1 = some v ∧ 0 ≤ v ∧ v ≤ 25) :
    ∃ r, score SIGNATURE iv = .ok r ∧
      (∀ d ∈ r.perGeneDetail, -25 ≤ d.norm ∧ d.norm ≤ 25) ∧
      |r.riskScore| ≤ 25 * sumAbsCoefficients ∧
      (25 : ℚ) * sumAbsCoefficients ≤ 40.37 := by
  have hpres : requiredPresent SIGNATURE iv := by
    intro p hp
    obtain ⟨v, hv, _⟩ := htv p hp
    rw [hv]
    rfl
  refine ⟨_, score_eq_of_present SIGNATURE iv hpres, ?_, ?_, ?_⟩
  · intro d hd
    simp only [detailsOf, List.mem_map] at hd
    obtain ⟨p, hp, rfl⟩ := hd
    obtain ⟨v, hv, hv0, hv25⟩ := htv p hp
    simp only [hv, Option.getD_some]
    constructor <;> linarith
  · have hb : ∀ p ∈ COEFFICIENTS,
        |((iv.targetValues.lookup p.1).getD 0 - iv.referenceValue) * p.2| ≤
          25 * |p.2| := by
      intro p hp
      obtain ⟨v, hv, hv0, hv25⟩ := htv p hp
      rw [hv, Option.getD_some, abs_mul]
      apply mul_le_mul_of_nonneg_right _ (abs_nonneg _)
      rw [abs_le]
      constructor <;> linarith
    have hle := abs_sum_le_of_le COEFFICIENTS _ _ hb
    have heq : (COEFFICIENTS.map (fun p => 25 * |p.2|)).sum = 25 * sumAbsCoefficients :=
      sum_map_scaled COEFFICIENTS (fun p => |p.2|) (fun p => 25 * |p.2|) 25
        (fun x _ => rfl)
    exact le_of_le_of_eq hle heq
  · have hS : sumAbsCoefficients = 1.6146859 := by with_unfolding_all rfl
    rw [hS]
    norm_num

/-- C10 witness: the bound instantiated at the UI default submission. -/
theorem form_bounded_riskScore_witness :
    ∃ r, score SIGNATURE exampleInput = .ok r ∧
      (∀ d ∈ r.perGeneDetail, -25 ≤ d.norm ∧ d.norm ≤ 25) ∧
      |r.riskScore| ≤ 25 * sumAbsCoefficients ∧
      (25 : ℚ) * sumAbsCoefficients ≤ 40.37 :=
  form_bounded_riskScore exampleInput
    (by with_unfolding_all decide) (by with_unfolding_all decide)
    (by with_unfolding_all decide)

/-- An IEEE-754-style extended value: an exact finite value, NaN, or ±∞.
Used to follow how Python float special values flow through the arithmetic
of `Geneapp.py`, which contains no finiteness check. -/
inductive EF where
  | fin (q : ℚ)
  | nan
  | inf
  | ninf
deriving DecidableEq

/-- IEEE addition on extended values; NaN is absorbing. -/
def EF.add : EF → EF → EF
  | .nan, _ => .nan
  | _, .nan => .nan
  | .fin a, .fin b => .fin (a + b)
  | .inf, .ninf => .nan
  | .ninf, .inf => .nan
  | .inf, _ => .inf
  | _, .inf => .inf
  | .ninf, _ => .ninf
  | _, .ninf => .ninf

/-- IEEE subtraction on extended values; NaN is absorbing. -/
def EF.sub : EF → EF → EF
  | .nan, _ => .nan
  | _, .nan => .nan
  | .fin a, .fin b => .fin (a - b)
  | .inf, .inf => .nan
  | .ninf, .ninf => .nan
  | .inf, _ => .inf
  | .ninf, _ => .ninf
  | _, .inf => .ninf
  | _, .ninf => .inf

/-- IEEE multiplication on extended values; NaN is absorbing and `±∞ * 0`
is NaN. -/
def EF.mul : EF → EF → EF
  | .nan, _ => .nan
  | _, .nan => .nan
  | .fin a, .fin b => .fin (a * b)
  | .inf, .inf => .inf
  | .inf, .ninf => .ninf
  | .ninf, .inf => .ninf
  | .ninf, .ninf => .inf
  | .inf, .fin b => if 0 < b then .inf else if b < 0 then .ninf else .nan
  | .ninf, .fin b => if 0 < b then .ninf else if b < 0 then .inf else .nan
  | .fin a, .inf => if 0 < a then .inf else if a < 0 then .ninf else .nan
  | .fin a, .ninf => if 0 < a then .ninf else if a < 0 then .inf else .nan

/-- IEEE strict greater-than on extended values; comparisons with NaN are
false, as in Python. -/
def EF.gt : EF → EF → Bool
  | .nan, _ => false
  | _, .nan => false
  | .fin a, .fin b => decide (a > b)
  | .inf, .inf => false
  | .inf, _ => true
  | .ninf, _ => false
  | .fin _, .inf => false
  | .fin _, .ninf => true

/-- A user submission whose values may be non-finite floats. -/
structure ExpressionInputE where
  referenceValue : EF
  targetValues : List (Gene × EF)
deriving DecidableEq

/-- One row of `calculation_details` over extended values. -/
structure GeneDetailE where
  gene : Gene
  raw : EF
  norm : EF
  coefficient : ℚ
  contribution : EF
deriving DecidableEq

/-- The scorer output over extended values. -/
structure ScoreResultE where
  riskScore : EF
  perGeneDetail : List GeneDetailE
  isHighRisk : Bool
deriving DecidableEq

/-- The loop of lines 109-121 of `Geneapp.py` over extended values: the
identical arithmetic, with float special values followed faithfully. -/
def scoreLoopE (iv : ExpressionInputE) :
    List (Gene × ℚ) → EF → List GeneDetailE → Except ScoreError (EF × List GeneDetailE)
  | [], risk_score, calculation_details => .ok (risk_score, calculation_details)
  | (gene, coef) :: rest, risk_score, calculation_details =>
    match iv.targetValues.lookup gene with
    | none => .error (.missingGeneValue gene)
    | some raw_val =>
      let norm_expr := EF.sub raw_val iv.referenceValue
      let contribution := EF.mul norm_expr (.fin coef)
      scoreLoopE iv rest (EF.add risk_score contribution)
        (calculation_details ++ [⟨gene, raw_val, norm_expr, coef, contribution⟩])

/-- Lines 106-124 of `Geneapp.py` over extended values. -/
def scoreE (sig : GeneSignature) (iv : ExpressionInputE) : Except ScoreError ScoreResultE :=
  match scoreLoopE iv sig.coefficients (.fin 0) [] with
  | .error e => .error e
  | .ok (risk_score, calculation_details) =>
    .ok { riskScore := risk_score,
          perGeneDetail := calculation_details,
          isHighRisk := EF.gt risk_score (.fin sig.cutoff) }

/-- The UI default submission with a NaN expression value for `TCEAL4`. -/
def nanInput : ExpressionInputE :=
  { referenceValue := .fin 6.90,
    targetValues :=
      [("TCEAL4", .nan), ("ACTR3B", .fin 10.00), ("ORAI3", .fin 10.00),
       ("PRIM1", .fin 10.00), ("LEMD1", .fin 10.00), ("INHBB", .fin 10.00)] }

/-- C4 counterexample: on a submission containing a NaN value the code does
not fail with any error; it returns a result whose `riskScore` is NaN (which
then compares as low risk). -/
theorem scoreE_nan_input_returns_ok :
    (scoreE SIGNATURE nanInput).map (fun r => (r.riskScore, r.isHighRisk)) =
      .ok (.nan, false) := by
  with_unfolding_all rfl

lemma scoreLoopE_ok (iv : ExpressionInputE) (cs : List (Gene × ℚ))
    (h : ∀ p ∈ cs, (iv.targetValues.lookup p.1).isSome = true) :
    ∀ (acc : EF) (ds : List GeneDetailE),
      ∃ rs ds2, scoreLoopE iv cs acc ds = .ok (rs, ds2) := by
  induction cs with
  | nil => intro acc ds; exact ⟨acc, ds, rfl⟩
  | cons q rest ih =>
    intro acc ds
    obtain ⟨g, c⟩ := q
    obtain ⟨v, hv⟩ := Option.isSome_iff_exists.mp (h (g, c) (List.mem_cons_self _ _))
    simp only [scoreLoopE, hv]
    exact ih (fun p hp => h p (List.mem_cons_of_mem _ hp)) _ _

lemma scoreLoopE_nan_acc (iv : ExpressionInputE) (cs : List (Gene × ℚ))
    (h : ∀ p ∈ cs, (iv.targetValues.lookup p.1).isSome = true) :
    ∀ (ds : List GeneDetailE),
      ∃ ds2, scoreLoopE iv cs .nan ds = .ok (.nan, ds2) := by
  induction cs with
  | nil => intro ds; exact ⟨ds, rfl⟩
  | cons q rest ih =>
    intro ds
    obtain ⟨g, c⟩ := q
    obtain ⟨v, hv⟩ := Option.isSome_iff_exists.mp (h (g, c) (List.mem_cons_self _ _))
    simp only [scoreLoopE, hv]
    have habs : EF.add .nan (EF.mul (EF.sub v iv.referenceValue) (.fin c)) = .nan := by
      cases EF.mul (EF.sub v iv.referenceValue) (.fin c) <;> rfl
    rw [habs]
    exact ih (fun p hp => h p (List.mem_cons_of_mem _ hp)) _

lemma scoreLoopE_nan_value (iv : ExpressionInputE) (cs : List (Gene × ℚ))
    (h : ∀ p ∈ cs, (iv.targetValues.lookup p.1).isSome = true) :
    ∀ (acc : EF) (ds : List GeneDetailE),
      (∃ p ∈ cs, iv.targetValues.lookup p.1 = some .nan) →
      ∃ ds2, scoreLoopE iv cs acc ds = .ok (.nan, ds2) := by
  induction cs with
  | nil => rintro acc ds ⟨p, hp, _⟩; cases hp
  | cons q rest ih =>
    rintro acc ds ⟨p, hp, hnan⟩
    obtain ⟨g, c⟩ := q
    obtain ⟨v, hv⟩ := Option.isSome_iff_exists.mp (h (g, c) (List.mem_cons_self _ _))
    have hrest := fun p hp => h p (List.mem_cons_of_mem _ hp)
    by_cases hg : iv.targetValues.lookup g = some .nan
    · simp only [scoreLoopE, hg]
      have h1 : EF.sub .nan iv.referenceValue = .nan := by
        cases iv.referenceValue <;> rfl
      have h2 : EF.mul (EF.sub EF.nan iv.referenceValue) (.fin c) = .nan := by
        rw [h1]; rfl
      have h3 : EF.add acc (EF.mul (EF.sub EF.nan iv.referenceValue) (.fin c)) = .nan := by
        rw [h2]; cases acc <;> rfl
      rw [h3]
      exact scoreLoopE_nan_acc iv rest hrest _
    · rcases List.mem_cons.mp hp with heq | hmem
      · exfalso
        rw [heq] at hnan
        exact hg hnan
      · simp only [scoreLoopE, hv]
        exact ih hrest _ _ ⟨p, hmem, hnan⟩

/-- C4 amended: the code performs no finiteness validation.  Whenever every
required gene key is present, `scoreE` succeeds — it never raises a
non-finite-input error — and if any consulted value is NaN the returned
`riskScore` is NaN (silently propagated) with `isHighRisk = false`. -/
theorem scoreE_no_finiteness_check (sig : GeneSignature) (iv : ExpressionInputE)
    (h : ∀ p ∈ sig.coefficients, (iv.targetValues.lookup p.1).isSome = true) :
    ∃ r, scoreE sig iv = .ok r ∧
      ((∃ p ∈ sig.coefficients, iv.targetValues.lookup p.1 = some .nan) →
        r.riskScore = .nan ∧ r.isHighRisk = false) := by
  by_cases hnan : ∃ p ∈ sig.coefficients, iv.targetValues.lookup p.1 = some .nan
  · obtain ⟨ds2, hloop⟩ := scoreLoopE_nan_value iv sig.coefficients h (.fin 0) [] hnan
    refine ⟨⟨.nan, ds2, false⟩, ?_, fun _ => ⟨rfl, rfl⟩⟩
    unfold scoreE
    rw [hloop]
    rfl
  · obtain ⟨rs, ds2, hloop⟩ := scoreLoopE_ok iv sig.coefficients h (.fin 0) []
    refine ⟨⟨rs, ds2, EF.gt rs (.fin sig.cutoff)⟩, ?_, fun hx => absurd hx hnan⟩
    unfold scoreE
    rw [hloop]

/-- C4 amended witness: the NaN submission instantiates the amended claim. -/
theorem scoreE_no_finiteness_check_witness :
    ∃ r, scoreE SIGNATURE nanInput = .ok r ∧
      ((∃ p ∈ SIGNATURE.coefficients, nanInput.targetValues.lookup p.1 = some .nan) →
        r.riskScore = .nan ∧ r.isHighRisk = false) :=
  scoreE_no_finiteness_check SIGNATURE nanInput (by decide)
